import Mathlib

/-!
# Verification of the sophiathoth core subsystems

Shallow embedding, in Lean 4, of the algorithmic core of the repository:

* `document_processor/app/parser.py` — the two-phase spreadsheet
  question/answer extractor (`ExcelParser._extract_questions`) and the
  question-persistence step of `ExcelParser.parse_and_save`;
* `semantic_engine/app/embeddings.py` — `EmbeddingService.generate_embedding`
  (cache lookup, preprocessing, model encoding);
* `knowledge_base/app/semantic.py` — `SemanticClient.find_similar_knowledge`
  (cache lookup, HTTP call to the semantic engine, error swallowing);
* `knowledge_base/app/semantic/service.py` —
  `SemanticService.find_similar_knowledge` (cosine similarity, threshold
  filter, descending sort on (similarity, index) tuples, truncation);
* `knowledge_base/app/api/routes/knowledge.py` — `search_knowledge_post`
  (semantic path with substring-search fallback and filter application).

Python dynamic values are modelled by small inductive types (`PyKey`,
`PyVal`); Python truthiness and `str()` are modelled explicitly.  Embedding
vectors are carried as exact integer sequences; a cosine-similarity float
`dot / (‖a‖·‖b‖) = d / √n` is represented exactly by the pair `(d, n)`
(`SimVal.ratio`), with a `nan` constructor for the `0/0` zero-norm case,
and float comparisons are implemented exactly by sign analysis plus
cross-multiplied squares (`simCmpVal`, `simGE`); a threshold `t` is passed
as the integer pair `tn/td`.  External effects (the Redis cache, the
embedding model, the HTTP provider) are passed in explicitly as values or
functions.
-/

/-! ## Python string and value model -/

/-- Decimal rendering worker: structural recursion on a fuel bound (the
fuel `n` always dominates the digit count of `n`). -/
def natStrGo : Nat → Nat → String
  | 0, n => String.mk [Nat.digitChar n]
  | fuel + 1, n =>
    if n < 10 then String.mk [Nat.digitChar n]
    else natStrGo fuel (n / 10) ++ String.mk [Nat.digitChar (n % 10)]

/-- Decimal digits of a natural number, as the characters of `str(n)`. -/
def natStr (n : Nat) : String := natStrGo n n

/-- `str(n)` for a Python integer. -/
def intStr (n : Int) : String :=
  if n < 0 then "-" ++ natStr n.natAbs else natStr n.natAbs

/-- A spreadsheet column identifier as produced by
`pandas.DataFrame.to_dict(orient='records')`: a header string or a numeric
(positional) key. -/
inductive PyKey where
  | kStr (s : String)
  | kNum (n : Int)
  deriving DecidableEq, Repr

/-- A spreadsheet cell value after `df.fillna('')`: a string or a number. -/
inductive PyVal where
  | vStr (s : String)
  | vNum (n : Int)
  deriving DecidableEq, Repr

/-- Python `str()` applied to a column key. -/
def pyKeyStr : PyKey → String
  | .kStr s => s
  | .kNum n => intStr n

/-- Python `str()` applied to a cell value. -/
def pyValStr : PyVal → String
  | .vStr s => s
  | .vNum n => intStr n

/-- Python truthiness of a cell value (`bool(x)`): the empty string and the
number zero are falsy. -/
def pyTruthy : PyVal → Bool
  | .vStr s => s ≠ ""
  | .vNum n => n ≠ 0

/-- Python truthiness of a column key (`if question_col and answer_col`). -/
def pyKeyTruthy : PyKey → Bool
  | .kStr s => s ≠ ""
  | .kNum n => n ≠ 0

/-- Does the character list `hay` start with `needle`? -/
def listStartsWith : List Char → List Char → Bool
  | _, [] => true
  | [], _ :: _ => false
  | c :: hs, d :: ns => c = d && listStartsWith hs ns

/-- Does `needle` occur as a contiguous run inside `hay`?  Models Python's
`needle in hay` substring test. -/
def listOccurs (needle : List Char) : List Char → Bool
  | [] => listStartsWith [] needle
  | c :: t => listStartsWith (c :: t) needle || listOccurs needle t

/-- Python `needle in hay` on strings. -/
def strHasSub (hay needle : String) : Bool :=
  listOccurs needle.data hay.data

/-- A regex word character (`\w`): ASCII letter, digit, or underscore. -/
def isWordChar (c : Char) : Bool :=
  c.isAlphanum || c = '_'

/-- Word boundary against an optional adjacent character. -/
def boundaryOk : Option Char → Bool
  | none => true
  | some c => !isWordChar c

/-- Does `w` occur at the head of `l` with a word boundary after it? -/
def wordAtHead (w l : List Char) : Bool :=
  listStartsWith l w && boundaryOk (l.drop w.length).head?

/-- Does `w` occur in `l` at a position whose previous character (`prev`)
and following character are word boundaries?  Models `re.search(r'\b…\b')`. -/
def wordOccursAux (w : List Char) : List Char → Option Char → Bool
  | l, prev => (boundaryOk prev && wordAtHead w l) ||
      match l with
      | [] => false
      | c :: t => wordOccursAux w t (some c)

/-- `re.search(r'\bw\b', s)` as a Boolean, for a word `w` made of word
characters. -/
def strHasWord (s w : String) : Bool :=
  wordOccursAux w.data s.data none

/-- ASCII lowercasing, modelling Python's `str.lower()`. -/
def lowerStr (s : String) : String :=
  String.mk (s.data.map Char.toLower)

/-- Python `str.strip()`: remove leading and trailing whitespace. -/
def strTrim (s : String) : String :=
  String.mk (((s.data.dropWhile Char.isWhitespace).reverse.dropWhile
    Char.isWhitespace).reverse)

/-- Python `s.endswith('?')`. -/
def endsWithQm (s : String) : Bool :=
  s.data.getLast? = some '?'

/-- Python `s.isdigit()`: non-empty and all decimal digits. -/
def strIsDigits (s : String) : Bool :=
  s ≠ "" && s.data.all Char.isDigit

/-- `int(s)` for a digit string. -/
def digitsToNat (s : String) : Nat :=
  s.data.foldl (fun a c => a * 10 + (c.toNat - 48)) 0

/-! ## Spreadsheet extractor (`document_processor/app/parser.py`)

A parsed sheet is the `df.fillna('').to_dict(orient='records')` view: an
ordered list of rows, each row an insertion-ordered association list from
column identifier to cell value (Python dicts preserve insertion order). -/

/-- A row record: ordered key/value pairs of one spreadsheet row. -/
abbrev Row := List (PyKey × PyVal)

/-- Dict lookup `row[k]` (`None`-free: `Option`). -/
def lookupRow (row : Row) (k : PyKey) : Option PyVal :=
  (row.find? (fun kv => decide (kv.1 = k))).map (·.2)

/-- Dict lookup with default: `row.get(k, default)`. -/
def rowGet (row : Row) (k : PyKey) (default : PyVal) : PyVal :=
  (lookupRow row k).getD default

/-- Does the lowercased header name contain a question keyword
(`'question' in col_name or 'query' in col_name or 'prompt' in col_name`)? -/
def questionKeywordMatch (k : PyKey) : Bool :=
  let n := lowerStr (pyKeyStr k)
  strHasSub n "question" || strHasSub n "query" || strHasSub n "prompt"

/-- Does the lowercased header name contain an answer keyword
(`'answer' in col_name or 'response' in col_name or 'reply' in col_name`)? -/
def answerKeywordMatch (k : PyKey) : Bool :=
  let n := lowerStr (pyKeyStr k)
  strHasSub n "answer" || strHasSub n "response" || strHasSub n "reply"

/-- The header-scanning loop of `ExcelParser._extract_questions`
(parser.py lines 78-83): iterate over the first row's keys, assigning
`question_col` on a question-keyword match and (`elif`) `answer_col` on an
answer-keyword match.  Each later match overwrites the earlier assignment. -/
def findCols (firstRow : Row) : Option PyKey × Option PyKey :=
  firstRow.foldl (fun acc kv =>
    if questionKeywordMatch kv.1 then (some kv.1, acc.2)
    else if answerKeywordMatch kv.1 then (acc.1, some kv.1)
    else acc) (none, none)

/-- One extracted question candidate (a dict appended to `questions` in
`_extract_questions`; the phase-1-only `answer_column` entry is not used
downstream and is not modelled). -/
structure QuestionCandidate where
  sheet : String
  row : Nat
  column : PyKey
  text : String
  context : String
  deriving DecidableEq, Repr

/-- Phase 1 (structured question/answer columns) for one sheet
(parser.py lines 72-112): find the question/answer columns in the first
row's keys; if both are found (and truthy, `if question_col and
answer_col`), emit one candidate per row with a truthy question cell
(`if not question_text or question_text == '': continue`). -/
def phase1Sheet (name : String) (rows : List Row) : List QuestionCandidate :=
  match rows with
  | [] => []
  | firstRow :: _ =>
    match findCols firstRow with
    | (some qc, some ac) =>
      if pyKeyTruthy qc && pyKeyTruthy ac then
        (rows.enum).filterMap (fun p =>
          let qv := rowGet p.2 qc (.vStr "")
          if pyTruthy qv then
            some { sheet := name, row := p.1, column := qc,
                   text := pyValStr qv,
                   context := pyValStr (rowGet p.2 ac (.vStr "")) }
          else none)
      else []
    | _ => []

/-- Phase 1 over all sheets, in sheet order (the first `for sheet_name,
rows in sheets.items()` loop; the trailing `if questions: continue` is the
last statement of the loop body and has no effect). -/
def phase1All (sheets : List (String × List Row)) : List QuestionCandidate :=
  sheets.foldl (fun acc s => acc ++ phase1Sheet s.1 s.2) []

/-- Is a stringified cell a question under the phase-2 heuristic
(parser.py lines 123-124): trimmed string ends with `?`, or
`re.search(r'\bquestion\b', cell_value.lower())` matches. -/
def isQuestionCell (s : String) : Bool :=
  endsWithQm (strTrim s) || strHasWord (lowerStr s) "question"

/-- Phase 2 processing of one cell (parser.py lines 117-150): classify,
then resolve the answer: (a) if the column key is numeric and the next
positional key is present in the same row, take that cell; (b) if the
value so far is falsy and a next row exists and contains the same key,
take that cell; stringify; an empty string becomes `"No answer found"`. -/
def phase2Cell (name : String) (rows : List Row) (idx : Nat) (row : Row)
    (k : PyKey) (v : PyVal) : Option QuestionCandidate :=
  let s := pyValStr v
  if isQuestionCell s then
    let a0 : PyVal := match k with
      | .kNum n => (lookupRow row (.kNum (n + 1))).getD (.vStr "")
      | .kStr _ => .vStr ""
    let a1 : PyVal :=
      if !pyTruthy a0 && decide (idx + 1 < rows.length) then
        match lookupRow (rows.getD (idx + 1) []) k with
        | some bv => bv
        | none => a0
      else a0
    let astr := pyValStr a1
    some { sheet := name, row := idx, column := k, text := s,
           context := if astr ≠ "" then astr else "No answer found" }
  else none

/-- Phase 2 over the cells of one row, in key order (`row.items()`). -/
def phase2Row (name : String) (rows : List Row) (idx : Nat) (row : Row) :
    List QuestionCandidate :=
  row.filterMap (fun kv => phase2Cell name rows idx row kv.1 kv.2)

/-- Phase 2 over the rows of one sheet starting at row index `i`. -/
def phase2Rows (name : String) (rows : List Row) :
    Nat → List Row → List QuestionCandidate
  | _, [] => []
  | i, row :: rest => phase2Row name rows i row ++ phase2Rows name rows (i + 1) rest

/-- Phase 2 (fallback heuristic cell scan) for one sheet. -/
def phase2Sheet (name : String) (rows : List Row) : List QuestionCandidate :=
  phase2Rows name rows 0 rows

/-- Phase 2 over all sheets (the second `for sheet_name, rows in
sheets.items()` loop, parser.py lines 115-150).  Note: this loop iterates
over every sheet, with no exclusion of sheets that produced phase-1
candidates. -/
def phase2All (sheets : List (String × List Row)) : List QuestionCandidate :=
  sheets.foldl (fun acc s => acc ++ phase2Sheet s.1 s.2) []

/-- `ExcelParser._extract_questions`: the phase-1 loop appends its
candidates to `questions`, then the phase-2 loop appends its candidates to
the same list. -/
def extract_questions (sheets : List (String × List Row)) :
    List QuestionCandidate :=
  phase1All sheets ++ phase2All sheets

/-! ### Persistence step of `ExcelParser.parse_and_save` -/

/-- One parsed sheet together with its pandas metadata: the `structure`
entry of `parse_excel_file` keeps `headers = list(df.columns)` per sheet. -/
structure SheetData where
  name : String
  headers : List PyKey
  rows : List Row
  deriving Repr

/-- A parsed workbook: ordered sheets. -/
abbrev Workbook := List SheetData

/-- The `sheets` dictionary passed to `_extract_questions`. -/
def sheetsOf (wb : Workbook) : List (String × List Row) :=
  wb.map (fun s => (s.name, s.rows))

/-- Column-index resolution in `parse_and_save` (parser.py lines 246-261):
numeric keys convert with `int(...)`; digit strings parse; other strings
resolve to their first position in the sheet's header list; anything else
defaults to 0. -/
def resolveColumn (wb : Workbook) (sheetName : String) (col : PyKey) : Int :=
  match col with
  | .kNum n => n
  | .kStr s =>
    if strIsDigits s then (digitsToNat s : Int)
    else
      let headers := ((wb.find? (fun sd => decide (sd.name = sheetName))).map
        (·.headers)).getD []
      if headers ≠ [] ∧ (PyKey.kStr s) ∈ headers then
        (headers.indexOf (PyKey.kStr s) : Int)
      else 0

/-- Context fix-up at save time (parser.py lines 264-266): an empty (falsy)
context is replaced by a synthesized location string. -/
def persistedContext (qd : QuestionCandidate) : String :=
  if qd.context = "" then
    "From sheet: " ++ qd.sheet ++ ", row: " ++ natStr qd.row ++
      ", column: " ++ pyKeyStr qd.column
  else qd.context

/-- A `TenderQuestion` record as built by `parse_and_save`
(parser.py lines 268-275), restricted to the fields derived from the
candidate. -/
structure PersistedQuestion where
  text : String
  rowIndex : Nat
  columnIndex : Int
  context : String
  deriving DecidableEq, Repr

/-- The question-persistence loop of `parse_and_save` (parser.py lines
240-277): for each extracted candidate whose sheet exists in the sheet
map, resolve the column index and fix up the context. -/
def parse_and_save_questions (wb : Workbook) : List PersistedQuestion :=
  (extract_questions (sheetsOf wb)).filterMap (fun qd =>
    if (wb.find? (fun sd => decide (sd.name = qd.sheet))).isSome then
      some { text := qd.text, rowIndex := qd.row,
             columnIndex := resolveColumn wb qd.sheet qd.column,
             context := persistedContext qd }
    else none)

/-! ### Claim-side descriptions of the extractor (for comparison)

These definitions follow the wording of the specification, to be compared
with the code-derived definitions above. -/

/-- Claim C7's designation rule, spec wording: the FIRST header matching a
question keyword is the question column; likewise for answer keywords
(here stated through its negation: the code picks the last match, so the
comparison definition below extracts the last match). -/
def lastQuestionHeader (row : Row) : Option PyKey :=
  ((row.map Prod.fst).filter questionKeywordMatch).getLast?

/-- The answer column the header scan actually designates: the last key
matching an answer keyword that does not also match a question keyword
(the `elif` gives question keywords priority per key). -/
def lastAnswerHeader (row : Row) : Option PyKey :=
  ((row.map Prod.fst).filter
    (fun k => !questionKeywordMatch k && answerKeywordMatch k)).getLast?

/-- The first header matching a question keyword — what claim C7 asserts
is designated. -/
def firstQuestionHeader (row : Row) : Option PyKey :=
  ((row.map Prod.fst).filter questionKeywordMatch).head?

/-- Claim C9's stated answer-priority rule, read with "empty" as Python
falsiness (the reading matching the spec's "if no answer found there"):
(a) the right neighbour when the column key is numeric, if non-empty;
else (b) the below neighbour, if present and non-empty; else (c) the
placeholder. -/
def answerPriorityClaim (rows : List Row) (idx : Nat) (k : PyKey) : String :=
  let row := rows.getD idx []
  let right : Option PyVal := match k with
    | .kNum n => lookupRow row (.kNum (n + 1))
    | .kStr _ => none
  let below : String :=
    if idx + 1 < rows.length then
      match lookupRow (rows.getD (idx + 1) []) k with
      | some bv => if pyTruthy bv then pyValStr bv else "No answer found"
      | none => "No answer found"
    else "No answer found"
  match right with
  | some rv => if pyTruthy rv then pyValStr rv else below
  | none => below

/-- The answer-resolution rule the code actually implements, as a
standalone function of the sheet's rows and the question cell's position:
start from the right neighbour (numeric keys only, defaulting to `''`),
overwrite with the below neighbour when the value so far is falsy and the
lookup succeeds, stringify, and use the placeholder only when the final
string is empty.  A falsy right neighbour such as the number `0` is kept
(and stringified to `"0"`) when the below lookup fails. -/
def answerResolve (rows : List Row) (idx : Nat) (k : PyKey) : String :=
  let row := rows.getD idx []
  let a0 : PyVal := match k with
    | .kNum n => (lookupRow row (.kNum (n + 1))).getD (.vStr "")
    | .kStr _ => .vStr ""
  let a1 : PyVal :=
    if !pyTruthy a0 && decide (idx + 1 < rows.length) then
      match lookupRow (rows.getD (idx + 1) []) k with
      | some bv => bv
      | none => a0
    else a0
  let astr := pyValStr a1
  if astr ≠ "" then astr else "No answer found"

/-! ## Embedding service (`semantic_engine/app/embeddings.py`)

Embedding vectors are modelled as exact integer sequences (`Vec`); all
claim-relevant behaviour (caching, error propagation, zero norms,
threshold comparison, ordering) is preserved exactly under this carrier.
A cosine similarity `dot / (‖a‖·‖b‖)` is represented by its numerator and
the square of its denominator (see `SimVal`). -/

/-- An embedding vector. -/
abbrev Vec := List Int

/-- The state of one Redis cache key: no entry, a stored (decoded) value,
or a backend that raises on access. -/
inductive CacheState where
  | absent
  | val (v : Vec)
  | failing

/-- `self.redis.get(cache_key)` for an embedding key: a raised backend
error is an `Except.error`; a present value decodes via `json.loads`. -/
def cacheGet : CacheState → Except Unit (Option Vec)
  | .absent => .ok none
  | .val v => .ok (some v)
  | .failing => .error ()

/-- The external collaborators of `EmbeddingService.generate_embedding`:
the spaCy preprocessing step and the sentence-transformer model. -/
structure EmbedEnv where
  preprocess : String → String
  encode : String → Vec

/-- `EmbeddingService.generate_embedding` (embeddings.py lines 48-75):
check the cache (the `redis.get` is not guarded by any `try`); on a hit
return the cached value; on a miss preprocess, encode with the model,
write through, and return the encoding.  The second component records
whether a model call was issued. -/
def generate_embedding (env : EmbedEnv) (cache : CacheState) (text : String) :
    Except Unit (Vec × Bool) :=
  match cacheGet cache with
  | .error e => .error e
  | .ok (some v) => .ok (v, false)
  | .ok none => .ok (env.encode (env.preprocess text), true)

/-! ## Knowledge-base semantic client (`knowledge_base/app/semantic.py`) -/

/-- One similar-knowledge result as returned by the semantic engine
(`result["results"]` items); only the fields the knowledge route reads. -/
structure KBRes where
  id : String
  similarity : Int
  deriving DecidableEq, Repr

/-- Cache state for a `similar_knowledge:` key. -/
inductive KBCache where
  | absent
  | val (rs : List KBRes)
  | failing

/-- `SemanticClient.find_similar_knowledge` (semantic.py lines 28-74):
the cache `get` (lines 46-50) precedes the `try` block, so a cache
backend error propagates; inside the `try`, any error from the HTTP call
to the semantic engine is caught and `[]` is returned. -/
def kbFindSimilar (cache : KBCache) (provider : Except Unit (List KBRes)) :
    Except Unit (List KBRes) :=
  match cache with
  | .failing => .error ()
  | .val rs => .ok rs
  | .absent =>
    match provider with
    | .error _ => .ok []
    | .ok rs => .ok rs

/-! ## Knowledge search route
(`knowledge_base/app/api/routes/knowledge.py`) -/

/-- Insert into a list sorted by the Boolean relation `le`, where
`le x y` means `x` may come before `y`. -/
def insertD (le : α → α → Bool) (x : α) : List α → List α
  | [] => [x]
  | y :: ys => if le x y then x :: y :: ys else y :: insertD le x ys

/-- Insertion sort by the Boolean relation `le` (stable). -/
def sortD (le : α → α → Bool) (l : List α) : List α :=
  l.foldr (insertD le) []

/-- An entry dict passed to the ranker (id/title/content/summary). -/
structure SEntry where
  id : String
  title : String
  summary : String
  content : String
  deriving DecidableEq, Repr

/-- `f"{entry['title']} {entry['summary']} {entry['content']}"`. -/
def entryText (e : SEntry) : String :=
  e.title ++ " " ++ e.summary ++ " " ++ e.content

/-- Dot product of two vectors (`np.dot`). -/
def dotI : Vec → Vec → Int
  | [], _ => 0
  | _, [] => 0
  | a :: as', b :: bs => a * b + dotI as' bs

/-- Squared Euclidean norm `‖v‖²`. -/
def normSq (v : Vec) : Int := dotI v v

/-- An IEEE float arising as a cosine similarity: `NaN`, or the exact
real number `d / √n` (where `n > 0` whenever produced by `cosSim`). -/
inductive SimVal where
  | nan
  | ratio (d : Int) (n : Int)
  deriving DecidableEq, Repr

/-- The cosine similarity `np.dot(a, b) / (np.linalg.norm(a) *
np.linalg.norm(b))`: `0/0 = NaN` when a norm is zero (a zero norm forces
a zero dot product), otherwise the exact value `d / √n`. -/
def cosSim (a b : Vec) : SimVal :=
  let n := normSq a * normSq b
  if n = 0 then .nan else .ratio (dotI a b) n

/-- Three-way comparison on `Int`. -/
def intCmp (a b : Int) : Ordering :=
  if a < b then .lt else if b < a then .gt else .eq

/-- Exact comparison of two similarity values `d₁/√n₁` and `d₂/√n₂`
(`n₁, n₂ > 0`): compare signs first, then cross-multiplied squares.
`NaN` is placed below every number (it never reaches the sort: NaN fails
the threshold filter). -/
def simCmpVal : SimVal → SimVal → Ordering
  | .nan, .nan => .eq
  | .nan, .ratio _ _ => .lt
  | .ratio _ _, .nan => .gt
  | .ratio d1 n1, .ratio d2 n2 =>
    if 0 ≤ d1 then
      if 0 ≤ d2 then intCmp (d1 * d1 * n2) (d2 * d2 * n1) else .gt
    else
      if 0 ≤ d2 then .lt else intCmp (d2 * d2 * n1) (d1 * d1 * n2)

/-- The float comparison `similarity >= threshold` where the threshold is
the rational `tn / td` (`td > 0`; the call sites use 0.6 and 0.7):
`d/√n ≥ tn/td` by sign analysis and cross-multiplied squares, and every
comparison with `NaN` is false. -/
def simGE (s : SimVal) (tn td : Int) : Bool :=
  match s with
  | .nan => false
  | .ratio d n =>
    if 0 ≤ d then
      if 0 ≤ tn then tn * tn * n ≤ d * d * td * td else true
    else
      if 0 ≤ tn then false else d * d * td * td ≤ tn * tn * n

/-- Python's tuple comparison on `(similarity, index)` pairs, as the
"may come before" relation of the descending sort
(`similarities.sort(reverse=True)`): strictly greater similarity first;
on exactly equal similarity, the larger index first. -/
def pairLe (x y : SimVal × Nat) : Bool :=
  match simCmpVal x.1 y.1 with
  | .gt => true
  | .lt => false
  | .eq => y.2 ≤ x.2

/-- A ranked result (`{"id", "title", "summary", "similarity"}`). -/
structure SimResult where
  id : String
  title : String
  summary : String
  similarity : SimVal
  deriving DecidableEq, Repr

/-- The `similarities` list of `SemanticService.find_similar_knowledge`
(service.py lines 53-59): the `(similarity, index)` tuples of the
entries whose cosine similarity against the query embedding passes the
threshold, in input order. -/
def simPairs (encode : String → Vec) (text : String) (entries : List SEntry)
    (tn td : Int) : List (SimVal × Nat) :=
  ((entries.map (fun e =>
    cosSim (encode text) (encode (entryText e)))).enum).filterMap
    (fun p => if simGE p.2 tn td then some (p.2, p.1) else none)

/-- Build one result dict (`{"id", "title", "summary", "similarity"}`,
service.py lines 67-74) from a ranked `(similarity, index)` tuple. -/
def mkSimResult (entries : List SEntry) (si : SimVal × Nat) : SimResult :=
  let e := entries.getD si.2 ⟨"", "", "", ""⟩
  { id := e.id, title := e.title, summary := e.summary,
    similarity := si.1 }

/-- `SemanticService.find_similar_knowledge` (service.py lines 22-76):
embed the query and every entry's concatenated text, keep the
`(similarity, index)` pairs passing the threshold, sort the tuples
descending, truncate to `limit`, and build the result dicts. -/
def find_similar_knowledge (encode : String → Vec) (text : String)
    (entries : List SEntry) (limit : Nat) (tn td : Int) : List SimResult :=
  ((sortD pairLe (simPairs encode text entries tn td)).take limit).map
    (mkSimResult entries)

/-- A similarity value produced by `cosSim` on the non-NaN path:
`d / √n` with a positive denominator square. -/
def SimValid : SimVal → Prop
  | .nan => False
  | .ratio _ n => 0 < n

/-- Is a similarity value the number `0.0` (as opposed to `NaN` or any
other number)?  Claim-side notion for C6. -/
def isZeroSimilarity : SimVal → Bool
  | .nan => false
  | .ratio d _ => d = 0

/-! ## Concrete fixtures used by counterexamples and witnesses -/

/-- A concrete embedding environment: identity preprocessing, constant
one-dimensional model. -/
def envC : EmbedEnv := { preprocess := fun s => s, encode := fun _ => [1] }

/-- A workbook sheet with structured question/answer columns whose
question cell also looks like a phase-2 question. -/
def sheetsC2 : List (String × List Row) :=
  [("S", [[(.kStr "Question", .vStr "What is X?"),
           (.kStr "Answer", .vStr "X is Y")]])]

/-- A header row with two question-keyword headers. -/
def rowC7 : Row :=
  [(.kStr "Question A", .vStr "a"), (.kStr "Question B", .vStr "b"),
   (.kStr "Answer", .vStr "c")]

/-- One sheet whose question cell has a numeric-zero right neighbour and
no below neighbour. -/
def rowsC9 : List Row :=
  [[(.kNum 0, .vStr "Is this right?"), (.kNum 1, .vNum 0)]]

/-- A constant encoder: every text maps to the vector `[1]`. -/
def encAll1 : String → Vec := fun _ => [1]

/-- Two entries that the constant encoder scores identically. -/
def entryA : SEntry := { id := "a", title := "ta", summary := "sa", content := "ca" }

/-- See `entryA`. -/
def entryB : SEntry := { id := "b", title := "tb", summary := "sb", content := "cb" }

/-- The workbook of `sheetsC2`, with headers, for the persistence step. -/
def wbC10 : Workbook :=
  [{ name := "S", headers := [.kStr "Question", .kStr "Answer"],
     rows := [[(.kStr "Question", .vStr "What is X?"),
               (.kStr "Answer", .vStr "X is Y")]] }]

theorem natStrGo_ne_empty (fuel n : Nat) : natStrGo fuel n ≠ "" := by
  cases fuel with
  | zero =>
    simp only [natStrGo, ne_eq, String.ext_iff]
    simp
  | succ fuel =>
    simp only [natStrGo]
    split
    · simp only [ne_eq, String.ext_iff]; simp
    · simp only [ne_eq, String.ext_iff, String.data_append]
      simp

theorem natStr_ne_empty (n : Nat) : natStr n ≠ "" := natStrGo_ne_empty n n

theorem intStr_ne_empty (n : Int) : intStr n ≠ "" := by
  unfold intStr
  split
  · simp only [ne_eq, String.ext_iff, String.data_append]
    simp
  · exact natStr_ne_empty n.natAbs

/-- A truthy Python value stringifies to a non-empty string. -/
theorem pyTruthy_str_ne_empty {v : PyVal} (h : pyTruthy v = true) :
    pyValStr v ≠ "" := by
  cases v with
  | vStr s => simpa [pyTruthy] using h
  | vNum n => exact intStr_ne_empty n

/-- The empty string is not classified as a question. -/
theorem isQuestionCell_empty : isQuestionCell "" = false := by decide

/-- A string-concatenation helper: prepending a non-empty literal keeps
the string non-empty. -/
theorem append_ne_empty_left {s t : String} (h : s.data ≠ []) :
    s ++ t ≠ "" := by
  simp only [ne_eq, String.ext_iff, String.data_append]
  intro hc
  rcases List.append_eq_nil.mp hc with ⟨h1, _⟩
  exact h h1

/-! ### Insertion-sort lemmas -/

theorem mem_insertD {le : α → α → Bool} {x a : α} :
    ∀ {l : List α}, a ∈ insertD le x l ↔ a = x ∨ a ∈ l := by
  intro l
  induction l with
  | nil => simp [insertD]
  | cons y ys ih =>
    simp only [insertD]
    split
    · simp [List.mem_cons]
    · simp only [List.mem_cons, ih]
      tauto

theorem mem_sortD {le : α → α → Bool} {a : α} :
    ∀ {l : List α}, a ∈ sortD le l ↔ a ∈ l := by
  intro l
  induction l with
  | nil => simp [sortD]
  | cons y ys ih =>
    show a ∈ insertD le y (sortD le ys) ↔ _
    rw [mem_insertD]
    simp [List.mem_cons, ih]

theorem pairwise_insertD {le : α → α → Bool} {P : α → Prop}
    (tot : ∀ a b, P a → P b → le a b = true ∨ le b a = true)
    (tra : ∀ a b c, P a → P b → P c →
      le a b = true → le b c = true → le a c = true)
    {x : α} (hPx : P x) :
    ∀ {l : List α}, (∀ a ∈ l, P a) →
      List.Pairwise (fun a b => le a b = true) l →
      List.Pairwise (fun a b => le a b = true) (insertD le x l) := by
  intro l
  induction l with
  | nil => intro _ _; simp [insertD]
  | cons y ys ih =>
    intro hPl hl
    rcases List.pairwise_cons.mp hl with ⟨hyall, hys⟩
    simp only [insertD]
    split
    · rename_i hxy
      refine List.pairwise_cons.mpr ⟨?_, hl⟩
      intro b hb
      rcases List.mem_cons.mp hb with rfl | hb
      · exact hxy
      · exact tra x y b hPx (hPl y (by simp)) (hPl b (by simp [hb])) hxy
          (hyall b hb)
    · rename_i hxy
      refine List.pairwise_cons.mpr ⟨?_, ?_⟩
      · intro b hb
        rcases mem_insertD.mp hb with rfl | hb
        · rcases tot b y hPx (hPl y (by simp)) with h | h
          · exact absurd h hxy
          · exact h
        · exact hyall b hb
      · exact ih (fun a ha => hPl a (by simp [ha])) hys

theorem pairwise_sortD {le : α → α → Bool} {P : α → Prop}
    (tot : ∀ a b, P a → P b → le a b = true ∨ le b a = true)
    (tra : ∀ a b c, P a → P b → P c →
      le a b = true → le b c = true → le a c = true) :
    ∀ {l : List α}, (∀ a ∈ l, P a) →
      List.Pairwise (fun a b => le a b = true) (sortD le l) := by
  intro l
  induction l with
  | nil => intro _; simp [sortD]
  | cons y ys ih =>
    intro hPl
    show List.Pairwise _ (insertD le y (sortD le ys))
    refine pairwise_insertD tot tra (hPl y (by simp)) ?_ (ih ?_)
    · intro a ha
      exact hPl a (by simp [mem_sortD.mp ha])
    · intro a ha
      exact hPl a (by simp [ha])

/-! ### Similarity-value ordering lemmas -/

theorem intCmp_swap (a b : Int) : intCmp b a = (intCmp a b).swap := by
  unfold intCmp
  rcases lt_trichotomy a b with h | h | h
  · simp [h, not_lt.mpr (le_of_lt h), Ordering.swap]
  · simp [h, lt_irrefl, Ordering.swap]
  · simp [h, not_lt.mpr (le_of_lt h), Ordering.swap]

theorem intCmp_eq_iff {a b : Int} : intCmp a b = .eq ↔ a = b := by
  unfold intCmp
  split <;> rename_i h1
  · constructor <;> intro hc <;> [cases hc; omega]
  · split <;> rename_i h2
    · constructor <;> intro hc <;> [cases hc; omega]
    · constructor <;> intro _ <;> [omega; rfl]

theorem intCmp_gt_iff {a b : Int} : intCmp a b = .gt ↔ b < a := by
  unfold intCmp
  split <;> rename_i h1
  · constructor <;> intro hc <;> [cases hc; omega]
  · split <;> rename_i h2
    · constructor <;> intro _ <;> [omega; rfl]
    · constructor <;> intro hc <;> [cases hc; omega]

theorem simCmpVal_swap (x y : SimVal) : simCmpVal y x = (simCmpVal x y).swap := by
  cases x with
  | nan =>
    cases y with
    | nan => rfl
    | ratio d n => rfl
  | ratio d1 n1 =>
    cases y with
    | nan => rfl
    | ratio d2 n2 =>
      by_cases h1 : (0:Int) ≤ d1 <;> by_cases h2 : (0:Int) ≤ d2
      · simp only [simCmpVal, h1, h2, if_true]
        exact intCmp_swap (d1 * d1 * n2) (d2 * d2 * n1)
      · simp [simCmpVal, h1, h2, Ordering.swap]
      · simp [simCmpVal, h1, h2, Ordering.swap]
      · simp only [simCmpVal, h1, h2, if_false]
        exact intCmp_swap (d2 * d2 * n1) (d1 * d1 * n2)

theorem pairLe_total (x y : SimVal × Nat) :
    pairLe x y = true ∨ pairLe y x = true := by
  unfold pairLe
  rw [simCmpVal_swap x.1 y.1]
  rcases h : simCmpVal x.1 y.1 with _ | _ | _ <;> (simp [Ordering.swap]; try omega)

theorem intCmp_lt_iff {a b : Int} : intCmp a b = .lt ↔ a < b := by
  unfold intCmp
  split <;> rename_i h1
  · simp [h1]
  · split <;> rename_i h2
    · constructor <;> intro hc <;> [cases hc; omega]
    · constructor <;> intro hc <;> [cases hc; omega]

theorem sq_cross_lt_le {d1 n1 d2 n2 d3 n3 : Int} (hn1 : 0 < n1) (hn2 : 0 < n2)
    (hn3 : 0 < n3) (h1 : d2 * d2 * n1 < d1 * d1 * n2)
    (h2 : d3 * d3 * n2 ≤ d2 * d2 * n3) : d3 * d3 * n1 < d1 * d1 * n3 := by
  have hA := mul_lt_mul_of_pos_right h1 hn3
  have hB := mul_le_mul_of_nonneg_right h2 (le_of_lt hn1)
  have hC : d3 * d3 * n1 * n2 < d1 * d1 * n3 * n2 := by nlinarith
  exact lt_of_mul_lt_mul_right hC (le_of_lt hn2)

theorem sq_cross_le_lt {d1 n1 d2 n2 d3 n3 : Int} (hn1 : 0 < n1) (hn2 : 0 < n2)
    (hn3 : 0 < n3) (h1 : d2 * d2 * n1 ≤ d1 * d1 * n2)
    (h2 : d3 * d3 * n2 < d2 * d2 * n3) : d3 * d3 * n1 < d1 * d1 * n3 := by
  have hA := mul_le_mul_of_nonneg_right h1 (le_of_lt hn3)
  have hB := mul_lt_mul_of_pos_right h2 hn1
  have hC : d3 * d3 * n1 * n2 < d1 * d1 * n3 * n2 := by nlinarith
  exact lt_of_mul_lt_mul_right hC (le_of_lt hn2)

theorem sq_cross_eq {d1 n1 d2 n2 d3 n3 : Int} (hn2 : 0 < n2)
    (h1 : d2 * d2 * n1 = d1 * d1 * n2) (h2 : d3 * d3 * n2 = d2 * d2 * n3) :
    d3 * d3 * n1 = d1 * d1 * n3 := by
  have hC : d3 * d3 * n1 * n2 = d1 * d1 * n3 * n2 := by
    linear_combination n1 * h2 + n3 * h1
  exact mul_right_cancel₀ (ne_of_gt hn2) hC

/-- Transitivity of the descending tuple order on valid pairs. -/
theorem pairLe_trans {x y z : SimVal × Nat} (hx : SimValid x.1)
    (hy : SimValid y.1) (hz : SimValid z.1) (h1 : pairLe x y = true)
    (h2 : pairLe y z = true) : pairLe x z = true := by
  obtain ⟨sx, ix⟩ := x
  obtain ⟨sy, iy⟩ := y
  obtain ⟨sz, iz⟩ := z
  rcases sx with _ | ⟨d1, n1⟩
  · exact absurd hx (by simp [SimValid])
  rcases sy with _ | ⟨d2, n2⟩
  · exact absurd hy (by simp [SimValid])
  rcases sz with _ | ⟨d3, n3⟩
  · exact absurd hz (by simp [SimValid])
  have hn1 : (0:Int) < n1 := hx
  have hn2 : (0:Int) < n2 := hy
  have hn3 : (0:Int) < n3 := hz
  unfold pairLe at h1 h2 ⊢
  by_cases s1 : (0:Int) ≤ d1 <;> by_cases s2 : (0:Int) ≤ d2 <;>
    by_cases s3 : (0:Int) ≤ d3 <;>
    simp only [simCmpVal, s1, s2, s3, if_true, if_false, ite_true,
      ite_false] at h1 h2 ⊢ <;>
    first
      | exact absurd h1 (by decide)
      | exact absurd h2 (by decide)
      | skip
  · -- d1, d2, d3 ≥ 0
    rcases e1 : intCmp (d1 * d1 * n2) (d2 * d2 * n1) with _ | _ | _ <;>
      rw [e1] at h1
    · exact absurd h1 (by simp)
    · rcases e2 : intCmp (d2 * d2 * n3) (d3 * d3 * n2) with _ | _ | _ <;>
        rw [e2] at h2
      · exact absurd h2 (by simp)
      · have q1 := intCmp_eq_iff.mp e1
        have q2 := intCmp_eq_iff.mp e2
        have q3 : d3 * d3 * n1 = d1 * d1 * n3 :=
          sq_cross_eq hn2 q1.symm q2.symm
        rw [show intCmp (d1 * d1 * n3) (d3 * d3 * n1) = .eq from
          intCmp_eq_iff.mpr q3.symm]
        simp only [decide_eq_true_eq] at h1 h2 ⊢
        omega
      · have q1 := intCmp_eq_iff.mp e1
        have q2 := intCmp_gt_iff.mp e2
        have q3 := sq_cross_le_lt hn1 hn2 hn3 (le_of_eq q1.symm) q2
        rw [show intCmp (d1 * d1 * n3) (d3 * d3 * n1) = .gt from
          intCmp_gt_iff.mpr q3]
    · have q1 := intCmp_gt_iff.mp e1
      rcases e2 : intCmp (d2 * d2 * n3) (d3 * d3 * n2) with _ | _ | _ <;>
        rw [e2] at h2
      · exact absurd h2 (by simp)
      · have q2 := intCmp_eq_iff.mp e2
        have q3 := sq_cross_lt_le hn1 hn2 hn3 q1 (le_of_eq q2.symm)
        rw [show intCmp (d1 * d1 * n3) (d3 * d3 * n1) = .gt from
          intCmp_gt_iff.mpr q3]
      · have q2 := intCmp_gt_iff.mp e2
        have q3 := sq_cross_lt_le hn1 hn2 hn3 q1 (le_of_lt q2)
        rw [show intCmp (d1 * d1 * n3) (d3 * d3 * n1) = .gt from
          intCmp_gt_iff.mpr q3]
  · -- d1, d2, d3 < 0
    rcases e1 : intCmp (d2 * d2 * n1) (d1 * d1 * n2) with _ | _ | _ <;>
      rw [e1] at h1
    · exact absurd h1 (by simp)
    · rcases e2 : intCmp (d3 * d3 * n2) (d2 * d2 * n3) with _ | _ | _ <;>
        rw [e2] at h2
      · exact absurd h2 (by simp)
      · have q1 := intCmp_eq_iff.mp e1
        have q2 := intCmp_eq_iff.mp e2
        have q3 : d3 * d3 * n1 = d1 * d1 * n3 := sq_cross_eq hn2 q1 q2
        rw [show intCmp (d3 * d3 * n1) (d1 * d1 * n3) = .eq from
          intCmp_eq_iff.mpr q3]
        simp only [decide_eq_true_eq] at h1 h2 ⊢
        omega
      · have q1 := intCmp_eq_iff.mp e1
        have q2 := intCmp_gt_iff.mp e2
        have q3 := sq_cross_lt_le hn3 hn2 hn1 q2 (le_of_eq q1.symm)
        rw [show intCmp (d3 * d3 * n1) (d1 * d1 * n3) = .gt from
          intCmp_gt_iff.mpr q3]
    · have q1 := intCmp_gt_iff.mp e1
      rcases e2 : intCmp (d3 * d3 * n2) (d2 * d2 * n3) with _ | _ | _ <;>
        rw [e2] at h2
      · exact absurd h2 (by simp)
      · have q2 := intCmp_eq_iff.mp e2
        have q3 := sq_cross_le_lt hn3 hn2 hn1 (le_of_eq q2.symm) q1
        rw [show intCmp (d3 * d3 * n1) (d1 * d1 * n3) = .gt from
          intCmp_gt_iff.mpr q3]
      · have q2 := intCmp_gt_iff.mp e2
        have q3 := sq_cross_lt_le hn3 hn2 hn1 q2 (le_of_lt q1)
        rw [show intCmp (d3 * d3 * n1) (d1 * d1 * n3) = .gt from
          intCmp_gt_iff.mpr q3]

theorem dotI_self_nonneg (v : Vec) : 0 ≤ dotI v v := by
  induction v with
  | nil => simp [dotI]
  | cons a as ih =>
    show 0 ≤ a * a + dotI as as
    have := mul_self_nonneg a
    omega

/-- A non-NaN cosine similarity is a valid ratio (positive denominator
square). -/
theorem cosSim_valid {a b : Vec} (h : cosSim a b ≠ .nan) :
    SimValid (cosSim a b) := by
  unfold cosSim at h ⊢
  by_cases hz : normSq a * normSq b = 0
  · simp [hz] at h
  · simp only [hz, if_false, ite_false, reduceIte]
    show 0 < normSq a * normSq b
    have h1 : 0 ≤ normSq a * normSq b :=
      mul_nonneg (dotI_self_nonneg a) (dotI_self_nonneg b)
    omega

theorem simGE_ne_nan {s : SimVal} {tn td : Int} (h : simGE s tn td = true) :
    s ≠ .nan := by
  cases s with
  | nan => simp [simGE] at h
  | ratio d n => simp

/-- A `pairLe` step never goes from a strictly smaller to a larger
similarity: the comparison outcome is not `lt`. -/
theorem pairLe_not_lt {x y : SimVal × Nat} (h : pairLe x y = true) :
    simCmpVal x.1 y.1 ≠ .lt := by
  unfold pairLe at h
  rcases e : simCmpVal x.1 y.1 with _ | _ | _ <;> rw [e] at h <;> simp_all

/-! ### Fold/append helpers -/

theorem foldl_append_eq {α β : Type} (f : β → List α) :
    ∀ (l : List β) (init : List α),
      l.foldl (fun acc s => acc ++ f s) init = init ++ (l.map f).flatten := by
  intro l
  induction l with
  | nil => intro init; simp
  | cons b t ih =>
    intro init
    show List.foldl _ (init ++ f b) t = _
    rw [ih (init ++ f b)]
    simp

theorem phase1All_eq (sheets : List (String × List Row)) :
    phase1All sheets = (sheets.map (fun s => phase1Sheet s.1 s.2)).flatten := by
  unfold phase1All
  rw [foldl_append_eq]
  simp

theorem phase2All_eq (sheets : List (String × List Row)) :
    phase2All sheets = (sheets.map (fun s => phase2Sheet s.1 s.2)).flatten := by
  unfold phase2All
  rw [foldl_append_eq]
  simp

/-! ### Extractor membership lemmas -/

theorem phase2Cell_some {name : String} {rows : List Row} {idx : Nat}
    {row : Row} {k : PyKey} {v : PyVal} {c : QuestionCandidate}
    (h : phase2Cell name rows idx row k v = some c) :
    isQuestionCell (pyValStr v) = true ∧ c.sheet = name ∧ c.row = idx ∧
      c.column = k ∧ c.text = pyValStr v := by
  unfold phase2Cell at h
  by_cases hq : isQuestionCell (pyValStr v) = true
  · simp only [hq, if_true, ite_true] at h
    cases h
    exact ⟨hq, rfl, rfl, rfl, rfl⟩
  · simp [hq] at h

theorem phase2Cell_context {name : String} {rows : List Row} {idx : Nat}
    {row : Row} {k : PyKey} {v : PyVal} {c : QuestionCandidate}
    (h : phase2Cell name rows idx row k v = some c)
    (hrow : rows.get? idx = some row) :
    c.context = answerResolve rows idx k := by
  have hD : rows.getD idx [] = row := by
    rw [List.getD_eq_getElem?_getD, ← List.get?_eq_getElem?, hrow]
    rfl
  unfold phase2Cell at h
  by_cases hq : isQuestionCell (pyValStr v) = true
  · simp only [hq, if_true, ite_true] at h
    cases h
    unfold answerResolve
    rw [hD]
  · simp [hq] at h

theorem mem_phase2Rows {name : String} {rows : List Row}
    {c : QuestionCandidate} :
    ∀ {start : Nat} {rest : List Row},
      c ∈ phase2Rows name rows start rest →
      (∀ j, rest.get? j = rows.get? (start + j)) →
      ∃ idx row kv, rows.get? idx = some row ∧ kv ∈ row ∧
        phase2Cell name rows idx row kv.1 kv.2 = some c := by
  intro start rest
  induction rest generalizing start with
  | nil => intro h _; simp [phase2Rows] at h
  | cons row rest ih =>
    intro h hj
    rcases List.mem_append.mp h with h | h
    · rcases List.mem_filterMap.mp h with ⟨kv, hkv, hc⟩
      refine ⟨start, row, kv, ?_, hkv, hc⟩
      have := hj 0
      simpa using this.symm
    · rcases ih h (fun j => by
        have := hj (j + 1)
        simpa [Nat.add_assoc, Nat.add_comm 1 j] using this) with
        ⟨idx, row', kv, h1, h2, h3⟩
      exact ⟨idx, row', kv, h1, h2, h3⟩

theorem mem_phase2Sheet {name : String} {rows : List Row}
    {c : QuestionCandidate} (h : c ∈ phase2Sheet name rows) :
    ∃ idx row kv, rows.get? idx = some row ∧ kv ∈ row ∧
      phase2Cell name rows idx row kv.1 kv.2 = some c :=
  mem_phase2Rows h (fun j => by simp)

theorem mem_phase1Sheet_text {name : String} {rows : List Row}
    {c : QuestionCandidate} (h : c ∈ phase1Sheet name rows) : c.text ≠ "" := by
  rcases rows with _ | ⟨firstRow, rest⟩
  · simp [phase1Sheet] at h
  simp only [phase1Sheet] at h
  rcases e : findCols firstRow with ⟨q, a⟩
  rw [e] at h
  rcases q with _ | qc
  · simp at h
  rcases a with _ | ac
  · simp at h
  dsimp only at h
  by_cases ht : (pyKeyTruthy qc && pyKeyTruthy ac) = true
  · rw [if_pos ht] at h
    rcases List.mem_filterMap.mp h with ⟨p, _, hc⟩
    by_cases hv : pyTruthy (rowGet p.2 qc (.vStr "")) = true
    · rw [if_pos hv] at hc
      cases hc
      exact pyTruthy_str_ne_empty hv
    · rw [if_neg hv] at hc
      cases hc
  · rw [if_neg ht] at h
    simp at h

theorem mem_phase2Sheet_text {name : String} {rows : List Row}
    {c : QuestionCandidate} (h : c ∈ phase2Sheet name rows) : c.text ≠ "" := by
  rcases mem_phase2Sheet h with ⟨idx, row, kv, _, _, hc⟩
  rcases phase2Cell_some hc with ⟨hq, _, _, _, htext⟩
  rw [htext]
  intro he
  rw [he] at hq
  rw [isQuestionCell_empty] at hq
  cases hq

/-- Every extracted candidate has non-empty question text. -/
theorem extract_questions_text_ne_empty {sheets : List (String × List Row)}
    {c : QuestionCandidate} (h : c ∈ extract_questions sheets) :
    c.text ≠ "" := by
  unfold extract_questions at h
  rcases List.mem_append.mp h with h | h
  · rw [phase1All_eq] at h
    rcases List.mem_flatten.mp h with ⟨l, hl, hc⟩
    rcases List.mem_map.mp hl with ⟨s, _, rfl⟩
    exact mem_phase1Sheet_text hc
  · rw [phase2All_eq] at h
    rcases List.mem_flatten.mp h with ⟨l, hl, hc⟩
    rcases List.mem_map.mp hl with ⟨s, _, rfl⟩
    exact mem_phase2Sheet_text hc

/-! ### Header-scan characterization -/

theorem getLast?_cons_or {α : Type} (a : α) (l : List α) :
    (a :: l).getLast? = l.getLast?.or (some a) := by
  cases l with
  | nil => rfl
  | cons b t =>
    rw [List.getLast?_cons_cons]
    have h : (b :: t).getLast?.isSome := by
      rw [List.getLast?_isSome]
      simp
    rcases e : (b :: t).getLast? with _ | x
    · rw [e] at h; simp at h
    · rfl

theorem lastQuestionHeader_cons (kv : PyKey × PyVal) (rest : Row) :
    lastQuestionHeader (kv :: rest) =
      if questionKeywordMatch kv.1 then
        (lastQuestionHeader rest).or (some kv.1)
      else lastQuestionHeader rest := by
  unfold lastQuestionHeader
  simp only [List.map_cons, List.filter_cons]
  by_cases hq : questionKeywordMatch kv.1 = true
  · rw [if_pos hq, if_pos hq, getLast?_cons_or]
  · rw [if_neg hq, if_neg hq]

theorem lastAnswerHeader_cons (kv : PyKey × PyVal) (rest : Row) :
    lastAnswerHeader (kv :: rest) =
      if !questionKeywordMatch kv.1 && answerKeywordMatch kv.1 then
        (lastAnswerHeader rest).or (some kv.1)
      else lastAnswerHeader rest := by
  unfold lastAnswerHeader
  simp only [List.map_cons, List.filter_cons]
  by_cases hc : (!questionKeywordMatch kv.1 && answerKeywordMatch kv.1) = true
  · rw [if_pos hc, if_pos hc, getLast?_cons_or]
  · rw [if_neg hc, if_neg hc]

theorem findCols_foldl_spec :
    ∀ (row : Row) (acc : Option PyKey × Option PyKey),
      row.foldl (fun acc kv =>
        if questionKeywordMatch kv.1 then (some kv.1, acc.2)
        else if answerKeywordMatch kv.1 then (acc.1, some kv.1)
        else acc) acc =
      ((lastQuestionHeader row).or acc.1, (lastAnswerHeader row).or acc.2) := by
  intro row
  induction row with
  | nil =>
    intro acc
    simp [lastQuestionHeader, lastAnswerHeader]
  | cons kv rest ih =>
    intro acc
    rw [List.foldl_cons, lastQuestionHeader_cons, lastAnswerHeader_cons]
    by_cases hq : questionKeywordMatch kv.1 = true
    · rw [if_pos hq, ih]
      simp [hq, Option.or_assoc]
    · by_cases ha : answerKeywordMatch kv.1 = true
      · rw [if_neg hq, if_pos ha, ih]
        simp [hq, ha, Option.or_assoc]
      · rw [if_neg hq, if_neg ha, ih]
        simp [hq, ha]

/-- The header scan designates exactly the LAST matching headers. -/
theorem findCols_eq_last (row : Row) :
    findCols row = (lastQuestionHeader row, lastAnswerHeader row) := by
  unfold findCols
  rw [findCols_foldl_spec row (none, none)]
  simp

/-! ### Ranker membership lemmas -/

theorem mem_enumFrom_snd {α : Type} :
    ∀ {l : List α} {n : Nat} {p : Nat × α}, p ∈ List.enumFrom n l → p.2 ∈ l := by
  intro l
  induction l with
  | nil => intro n p h; simp [List.enumFrom] at h
  | cons a t ih =>
    intro n p h
    rcases List.mem_cons.mp h with rfl | h
    · simp
    · exact List.mem_cons.mpr (Or.inr (ih h))

theorem mem_enum_snd {α : Type} {l : List α} {p : Nat × α}
    (h : p ∈ l.enum) : p.2 ∈ l := mem_enumFrom_snd h

/-- Every pair in `simPairs` passed the threshold filter. -/
theorem simPairs_ge {encode : String → Vec} {text : String}
    {entries : List SEntry} {tn td : Int} {si : SimVal × Nat}
    (h : si ∈ simPairs encode text entries tn td) :
    simGE si.1 tn td = true := by
  rcases List.mem_filterMap.mp h with ⟨p, _, hpc⟩
  by_cases hg : simGE p.2 tn td = true
  · rw [if_pos hg] at hpc
    cases hpc
    exact hg
  · rw [if_neg hg] at hpc
    cases hpc

/-- Every result of the ranker passed the threshold filter. -/
theorem find_similar_sim_ge {encode : String → Vec} {text : String}
    {entries : List SEntry} {limit : Nat} {tn td : Int} {r : SimResult}
    (h : r ∈ find_similar_knowledge encode text entries limit tn td) :
    simGE r.similarity tn td = true := by
  simp only [find_similar_knowledge] at h
  rcases List.mem_map.mp h with ⟨si, hsi, rfl⟩
  have h1 : si ∈ sortD pairLe (simPairs encode text entries tn td) :=
    List.take_subset _ _ hsi
  exact simPairs_ge (mem_sortD.mp h1)

/-- Every `(similarity, index)` pair the ranker sorts is a valid
(non-NaN, positive-denominator) cosine value. -/
theorem sims_valid {encode : String → Vec} {text : String}
    {entries : List SEntry} {tn td : Int} {si : SimVal × Nat}
    (h : si ∈ simPairs encode text entries tn td) :
    SimValid si.1 := by
  rcases List.mem_filterMap.mp h with ⟨p, hp, hpc⟩
  by_cases hg : simGE p.2 tn td = true
  · rw [if_pos hg] at hpc
    cases hpc
    have hmem := mem_enum_snd hp
    rcases List.mem_map.mp hmem with ⟨e, _, he⟩
    rw [← he]
    exact cosSim_valid (by rw [he]; exact simGE_ne_nan hg)
  · rw [if_neg hg] at hpc
    cases hpc

/-! ### Sorted-position and ILIKE bridge lemmas -/

theorem length_insertD {le : α → α → Bool} (x : α) :
    ∀ (l : List α), (insertD le x l).length = l.length + 1 := by
  intro l
  induction l with
  | nil => rfl
  | cons y ys ih =>
    simp only [insertD]
    split
    · rfl
    · simp [ih]

theorem length_sortD {le : α → α → Bool} :
    ∀ (l : List α), (sortD le l).length = l.length := by
  intro l
  induction l with
  | nil => rfl
  | cons y ys ih =>
    show (insertD le y (sortD le ys)).length = _
    rw [length_insertD, ih]
    rfl

/-- In a list that is pairwise ordered by `le`, an element `y` that `x`
may not precede (`le x y = false`) occurs strictly before `x`. -/
theorem before_of_pairwise {le : α → α → Bool} :
    ∀ {l : List α}, List.Pairwise (fun a b => le a b = true) l →
      ∀ {x y : α}, x ∈ l → y ∈ l → x ≠ y → le x y = false →
      ∃ l1 l2 l3, l = l1 ++ y :: l2 ++ x :: l3 := by
  intro l
  induction l with
  | nil => intro _ x y hx _ _ _; cases hx
  | cons a t ih =>
    intro hp x y hx hy hne hxy
    rcases List.pairwise_cons.mp hp with ⟨hall, ht⟩
    by_cases hay : a = y
    · subst hay
      rcases List.mem_cons.mp hx with rfl | hxt
      · exact absurd rfl hne
      · rcases List.append_of_mem hxt with ⟨s1, s2, rfl⟩
        exact ⟨[], s1, s2, rfl⟩
    · by_cases hax : a = x
      · subst hax
        rcases List.mem_cons.mp hy with h | hyt
        · exact absurd h.symm hay
        · exact absurd (hall y hyt) (by simp [hxy])
      · rcases List.mem_cons.mp hx with rfl | hxt
        · exact absurd rfl hax
        rcases List.mem_cons.mp hy with rfl | hyt
        · exact absurd rfl hay
        rcases ih ht hxt hyt hne hxy with ⟨l1, l2, l3, heq⟩
        exact ⟨a :: l1, l2, l3, by rw [heq]; rfl⟩

/-- C1 counterexample: `generate_embedding` applied to the empty string
with no cached entry does NOT return a zero vector without a model call —
it issues a model call (second component `true`) and returns the model's
encoding, contradicting the claimed immediate all-zero fallback. -/
theorem C1_counterexample :
    generate_embedding envC CacheState.absent "" = .ok ([1], true) ∧
    generate_embedding envC CacheState.absent "" ≠ .ok ([0], false) := by
  constructor
  · rfl
  · intro h
    cases h

/-- C1 (amended): `EmbeddingService.generate_embedding` has no
empty-input or non-string special case: on a cache miss, every text —
the empty string included — is preprocessed and encoded by the model,
and the model's vector is returned (a model call is issued; there is no
zero-vector fallback path in the function). -/
theorem C1_no_empty_fallback (env : EmbedEnv) (text : String) :
    generate_embedding env CacheState.absent text =
      .ok (env.encode (env.preprocess text), true) := rfl

/-- C2 counterexample: a sheet with structured `Question`/`Answer`
columns yields one phase-1 candidate AND one additional phase-2
candidate for the same question cell — phase 2 is not skipped for
structured sheets, so the sheet's candidates come from both phases. -/
theorem C2_counterexample :
    (phase1All sheetsC2).length = 1 ∧ (phase2All sheetsC2).length = 1 ∧
    (extract_questions sheetsC2).map (fun c => c.text) =
      ["What is X?", "What is X?"] := by
  refine ⟨by decide, by decide, by decide⟩

/-- C2 (amended): the phase-2 heuristic scan runs over every sheet
regardless of phase-1 success — every phase-2 candidate of every sheet
(also one that produced phase-1 candidates) appears in the output of
`_extract_questions`. -/
theorem C2_phase2_never_skipped (sheets : List (String × List Row))
    (s : String × List Row) (c : QuestionCandidate) (hs : s ∈ sheets)
    (hc : c ∈ phase2Sheet s.1 s.2) : c ∈ extract_questions sheets := by
  unfold extract_questions
  refine List.mem_append.mpr (Or.inr ?_)
  rw [phase2All_eq]
  exact List.mem_flatten.mpr
    ⟨phase2Sheet s.1 s.2, List.mem_map.mpr ⟨s, hs, rfl⟩, hc⟩

/-- C2 witness: the phase-2 duplicate candidate of the structured sheet
is in the extractor's output. -/
theorem C2_witness :
    ({ sheet := "S", row := 0, column := .kStr "Question",
       text := "What is X?", context := "No answer found" } :
      QuestionCandidate) ∈ extract_questions sheetsC2 :=
  C2_phase2_never_skipped sheetsC2
    ("S", [[(.kStr "Question", .vStr "What is X?"),
            (.kStr "Answer", .vStr "X is Y")]])
    _ (by decide) (by decide)

/-- C3 counterexample: when the cache backend raises, the raised error
propagates out of `generate_embedding` — the result differs from the
cache-absent (miss) result, contradicting "treated as a cache miss,
never propagated". -/
theorem C3_counterexample :
    generate_embedding envC CacheState.failing "x" = .error () ∧
    generate_embedding envC CacheState.absent "x" = .ok ([1], true) := ⟨rfl, rfl⟩

/-- C3 (amended): the cache `get` at both sites precedes any `try`
block, so a cache backend error is raised to the caller; only the
provider (HTTP) error after a cache miss is swallowed, degrading to an
empty result list. -/
theorem C3_cache_error_propagates :
    (∀ (env : EmbedEnv) (t : String),
      generate_embedding env CacheState.failing t = .error ()) ∧
    (∀ pr : Except Unit (List KBRes),
      kbFindSimilar KBCache.failing pr = .error ()) ∧
    (∀ e : Unit, kbFindSimilar KBCache.absent (.error e) = .ok []) :=
  ⟨fun _ _ => rfl, fun _ => rfl, fun _ => rfl⟩

/-- C5 counterexample: two candidates with exactly equal similarity (the
constant encoder scores both entries identically, above the threshold)
are returned in REVERSED input order, not original order. -/
theorem C5_counterexample :
    (find_similar_knowledge encAll1 "q" [entryA, entryB] 10 6 10).map
      (fun r => r.id) = ["b", "a"] ∧
    (find_similar_knowledge encAll1 "q" [entryA, entryB] 10 6 10).map
      (fun r => r.id) ≠ ["a", "b"] := by
  refine ⟨by decide, by decide⟩

/-- C5 (amended): the ranker sorts the `(similarity, index)` tuples with
`sort(reverse=True)`, so ties on exactly equal similarity are broken by
the LARGER original index first: in every candidate list, whenever two
candidates pass the threshold with exactly equal similarity, the
later-indexed one is placed strictly before the earlier-indexed one in
the returned sequence (shown here with `limit` large enough that no
truncation hides the pair). -/
theorem C5_equal_scores_reversed (encode : String → Vec) (text : String)
    (entries : List SEntry) (limit : Nat) (tn td : Int) (i j : Nat)
    (si sj : SimVal)
    (hi : (si, i) ∈ simPairs encode text entries tn td)
    (hj : (sj, j) ∈ simPairs encode text entries tn td)
    (hij : i < j) (heq : simCmpVal si sj = .eq)
    (hlim : (simPairs encode text entries tn td).length ≤ limit) :
    ∃ r1 r2 r3 : List SimResult,
      find_similar_knowledge encode text entries limit tn td =
        r1 ++ mkSimResult entries (sj, j) :: r2 ++
          mkSimResult entries (si, i) :: r3 := by
  have hsorted : List.Pairwise (fun a b => pairLe a b = true)
      (sortD pairLe (simPairs encode text entries tn td)) :=
    pairwise_sortD (P := fun si => SimValid si.1)
      (fun a b _ _ => pairLe_total a b)
      (fun a b c ha hb hc => pairLe_trans ha hb hc)
      (fun a ha => sims_valid ha)
  have hxm : (si, i) ∈ sortD pairLe (simPairs encode text entries tn td) :=
    mem_sortD.mpr hi
  have hym : (sj, j) ∈ sortD pairLe (simPairs encode text entries tn td) :=
    mem_sortD.mpr hj
  have hne : (si, i) ≠ (sj, j) := by
    intro hc
    cases hc
    omega
  have hle : pairLe (si, i) (sj, j) = false := by
    unfold pairLe
    rw [heq]
    show decide (j ≤ i) = false
    exact decide_eq_false (by omega)
  rcases before_of_pairwise hsorted hxm hym hne hle with ⟨l1, l2, l3, hdec⟩
  refine ⟨l1.map (mkSimResult entries), l2.map (mkSimResult entries),
    l3.map (mkSimResult entries), ?_⟩
  unfold find_similar_knowledge
  rw [List.take_of_length_le (by rw [length_sortD]; exact hlim)]
  rw [hdec]
  simp

/-- C5 witness: the amended theorem at the constant encoder, where both
entries score `1` — the index-1 entry is returned before the index-0
entry. -/
theorem C5_witness :
    ∃ r1 r2 r3 : List SimResult,
      find_similar_knowledge encAll1 "q" [entryA, entryB] 2 6 10 =
        r1 ++ mkSimResult [entryA, entryB] (SimVal.ratio 1 1, 1) :: r2 ++
          mkSimResult [entryA, entryB] (SimVal.ratio 1 1, 0) :: r3 :=
  C5_equal_scores_reversed encAll1 "q" [entryA, entryB] 2 6 10 0 1
    (SimVal.ratio 1 1) (SimVal.ratio 1 1) (by decide) (by decide)
    (by decide) (by decide) (by decide)

/-- C6 counterexample: the cosine similarity of a zero-norm pair is NaN
(the float computation is `0/0`), not the number `0.0` — the claim's
"yields similarity 0.0" is false (the no-exception part does hold: the
computation is total). -/
theorem C6_counterexample :
    cosSim ([0] : Vec) ([1] : Vec) = SimVal.nan ∧
    isZeroSimilarity (cosSim ([0] : Vec) ([1] : Vec)) = false := by
  refine ⟨by decide, by decide⟩

/-- C6 (amended): a zero-norm input makes the cosine computation NaN
(no exception is raised: the computation is total), NaN fails every
threshold comparison, and consequently no ranked result ever carries a
NaN similarity — zero-norm candidates are silently filtered out rather
than scored 0.0. -/
theorem C6_zero_norm_nan :
    (∀ a b : Vec, normSq a = 0 → cosSim a b = SimVal.nan) ∧
    (∀ a b : Vec, normSq b = 0 → cosSim a b = SimVal.nan) ∧
    (∀ tn td : Int, simGE SimVal.nan tn td = false) ∧
    (∀ (encode : String → Vec) (text : String) (entries : List SEntry)
       (limit : Nat) (tn td : Int) (r : SimResult),
       r ∈ find_similar_knowledge encode text entries limit tn td →
       r.similarity ≠ SimVal.nan) := by
  refine ⟨?_, ?_, ?_, ?_⟩
  · intro a b h
    unfold cosSim
    simp [h]
  · intro a b h
    unfold cosSim
    simp [h]
  · intro tn td
    rfl
  · intro encode text entries limit tn td r h
    exact simGE_ne_nan (find_similar_sim_ge h)

/-- C6 witness: the amended theorem at concrete inputs. -/
theorem C6_witness :
    cosSim ([0] : Vec) ([3] : Vec) = SimVal.nan ∧
    simGE SimVal.nan 6 10 = false ∧
    ({ id := "a", title := "ta", summary := "sa",
       similarity := SimVal.ratio 1 1 } : SimResult).similarity ≠
      SimVal.nan :=
  ⟨C6_zero_norm_nan.1 [0] [3] (by decide),
   C6_zero_norm_nan.2.2.1 6 10,
   C6_zero_norm_nan.2.2.2 encAll1 "q" [entryA] 10 6 10 _ (by decide)⟩

/-- C8: the ranker returns at most `limit` results, every returned
result passed the threshold comparison, and the results are sorted
non-increasingly by similarity (pairwise: no later result compares
strictly greater). -/
theorem C8_rank_properties (encode : String → Vec) (text : String)
    (entries : List SEntry) (limit : Nat) (tn td : Int) :
    (find_similar_knowledge encode text entries limit tn td).length ≤
      limit ∧
    (∀ r ∈ find_similar_knowledge encode text entries limit tn td,
      simGE r.similarity tn td = true) ∧
    List.Pairwise (fun r1 r2 : SimResult =>
      simCmpVal r1.similarity r2.similarity ≠ .lt)
      (find_similar_knowledge encode text entries limit tn td) := by
  refine ⟨?_, ?_, ?_⟩
  · simp only [find_similar_knowledge, List.length_map]
    exact List.length_take_le _ _
  · intro r h
    exact find_similar_sim_ge h
  · simp only [find_similar_knowledge]
    apply List.pairwise_map.mpr
    have hsorted : List.Pairwise (fun a b => pairLe a b = true)
        (sortD pairLe (((entries.map (fun e =>
          cosSim (encode text) (encode (entryText e)))).enum).filterMap
          (fun p => if simGE p.2 tn td then some (p.2, p.1) else none))) :=
      pairwise_sortD (P := fun si => SimValid si.1)
        (fun a b _ _ => pairLe_total a b)
        (fun a b c ha hb hc => pairLe_trans ha hb hc)
        (fun a ha => sims_valid ha)
    have htake := hsorted.sublist (List.take_sublist limit _)
    exact htake.imp (fun h => pairLe_not_lt h)

/-- C7 counterexample: with two question-keyword headers, the header
scan designates the LAST matching header (`"Question B"`), not the
first (`"Question A"`) — "first match wins" is false. -/
theorem C7_counterexample :
    findCols rowC7 = (some (.kStr "Question B"), some (.kStr "Answer")) ∧
    firstQuestionHeader rowC7 = some (.kStr "Question A") ∧
    (findCols rowC7).1 ≠ firstQuestionHeader rowC7 := by
  refine ⟨by decide, by decide, by decide⟩

/-- C7 (amended): the header scan overwrites its assignment on every
match, so the designated question column is the LAST header (in
declaration order) matching a question keyword, and the designated
answer column is the last header matching an answer keyword that does
not also match a question keyword (the `elif` gives question keywords
per-header priority). -/
theorem C7_last_match_wins (row : Row) :
    findCols row = (lastQuestionHeader row, lastAnswerHeader row) :=
  findCols_eq_last row

/-- C9 counterexample: a question cell whose numeric-key right
neighbour is the number `0` (Python-falsy, hence not a found answer by
the code's own test) and which has no below neighbour yields
`answer_context = "0"` — the code resurrects the falsy right neighbour
at the final stringification — whereas the claimed priority rule
(reading "empty" as the code's falsiness test) prescribes
`"No answer found"`. -/
theorem C9_counterexample :
    (phase2Sheet "S" rowsC9).map (fun c => c.context) = ["0"] ∧
    answerPriorityClaim rowsC9 0 (.kNum 0) = "No answer found" ∧
    ("0" : String) ≠ "No answer found" := by
  refine ⟨by decide, by decide, by decide⟩

/-- C9 (amended): every phase-2 candidate's `answer_context` equals
`answerResolve` applied at its cell position: start from the numeric
right neighbour (defaulting to the empty string), overwrite it with the
below neighbour only when the value so far is falsy AND the below
lookup succeeds, stringify, and fall back to `"No answer found"` only
when the final string is empty — so a falsy-but-nonempty-stringifying
neighbour such as the number `0` can become the context. -/
theorem C9_answer_resolution (name : String) (rows : List Row)
    (c : QuestionCandidate) (h : c ∈ phase2Sheet name rows) :
    c.context = answerResolve rows c.row c.column := by
  rcases mem_phase2Sheet h with ⟨idx, row, kv, hrow, _, hc⟩
  rcases phase2Cell_some hc with ⟨_, _, hrowidx, hcol, _⟩
  rw [hrowidx, hcol]
  exact phase2Cell_context hc hrow

/-- C9 witness: the amended theorem at the concrete sheet. -/
theorem C9_witness :
    ({ sheet := "S", row := 0, column := .kNum 0,
       text := "Is this right?", context := "0" } :
      QuestionCandidate).context = answerResolve rowsC9 0 (.kNum 0) :=
  C9_answer_resolution "S" rowsC9 _ (by decide)

/-- C10: every question record persisted by `parse_and_save` has
non-empty text (phase 1 keeps only truthy question cells, whose
stringification is non-empty; every phase-2 question cell is non-empty
because the empty string is never classified as a question) and
non-empty context (an empty context is replaced at save time by the
synthesized `"From sheet: ..."` location string; phase 2 already
replaced empty answers by `"No answer found"`). -/
theorem C10_persisted_nonempty (wb : Workbook) (p : PersistedQuestion)
    (h : p ∈ parse_and_save_questions wb) : p.text ≠ "" ∧ p.context ≠ "" := by
  unfold parse_and_save_questions at h
  rcases List.mem_filterMap.mp h with ⟨qd, hqd, hpc⟩
  by_cases hs : (wb.find? (fun sd => decide (sd.name = qd.sheet))).isSome = true
  · rw [if_pos hs] at hpc
    cases hpc
    refine ⟨extract_questions_text_ne_empty hqd, ?_⟩
    show persistedContext qd ≠ ""
    unfold persistedContext
    by_cases he : qd.context = ""
    · rw [if_pos he]
      apply append_ne_empty_left
      simp only [String.data_append]
      simp
    · rw [if_neg he]
      exact he
  · rw [if_neg hs] at hpc
    cases hpc

/-- C10 witness: the persisted phase-1 record of the concrete workbook
has non-empty text and context. -/
theorem C10_witness :
    ({ text := "What is X?", rowIndex := 0, columnIndex := 0,
       context := "X is Y" } : PersistedQuestion).text ≠ "" ∧
    ({ text := "What is X?", rowIndex := 0, columnIndex := 0,
       context := "X is Y" } : PersistedQuestion).context ≠ "" :=
  C10_persisted_nonempty wbC10 _ (by decide)

/-- C8 witness: the threshold conjunct of `C8_rank_properties` at a
concrete ranked result. -/
theorem C8_witness :
    simGE (SimVal.ratio 1 1) 6 10 = true :=
  (C8_rank_properties encAll1 "q" [entryA, entryB] 10 6 10).2.1
    ⟨"b", "tb", "sb", SimVal.ratio 1 1⟩ (by decide)
